import Mathlib

/-!
# flippy_sensors: the circular history buffer and its users

A shallow embedding of `lib/circular_buffer/circular_buffer.c`,
`lib/sht30/sht30.c` and the timer / graph code of `flippy_temp.c`.

Conventions of the embedding
* `size_t` values are natural numbers; every `size_t` addition and
  subtraction of the source is wrapped modulo `SIZE_MOD`.
* `float` values are rationals (exact arithmetic).
* `int` values are integers (signed overflow is undefined in C).
* A C function that mutates through pointers returns the new values.
* The storage of a buffer is the list of the slots of its allocation. An access
  outside the allocation and a remainder by zero are undefined in C; here such a
  read gives the zero measurement, such a write does nothing and `x % 0 = x`.
  The theorems are about states in which neither happens.
* A capacity `C` whose storage `malloc` can provide satisfies `2 * C ≤ SIZE_MOD`,
  since one `Measurement` takes more than two bytes.
-/

namespace FlippyTemp

/-! ## Machine arithmetic -/

/-- Number of values of the type `size_t` (a 32-bit target). -/
def SIZE_MOD : Nat := 4294967296

/-- Addition of two `size_t` values. -/
def szAdd (a b : Nat) : Nat := (a + b) % SIZE_MOD

/-- Subtraction of two `size_t` values. -/
def szSub (a b : Nat) : Nat := (a + (SIZE_MOD - b % SIZE_MOD)) % SIZE_MOD

/-- The C conversion `(int)x` of a real value: truncation toward zero. -/
def truncToInt (q : ℚ) : Int := if 0 ≤ q then Int.floor q else Int.ceil q

/-! ## measurement.h -/

/-- Modelled from the spec: the `DateTime` type of `furi_hal_rtc.h`, which is not part of
the sources; a wall-clock date and time with year to second resolution. -/
structure DateTime where
  year : Nat
  month : Nat
  day : Nat
  hour : Nat
  minute : Nat
  second : Nat
deriving DecidableEq, Repr

/-- The struct `Measurement`. -/
structure Measurement where
  temperature : ℚ
  humidity : ℚ
  timestamp : DateTime
deriving DecidableEq, Repr

/-- The `Measurement` whose bytes are all zero, as `memset` leaves it. -/
def Measurement.zero : Measurement :=
  { temperature := 0, humidity := 0,
    timestamp := { year := 0, month := 0, day := 0, hour := 0, minute := 0, second := 0 } }

/-! ## circular_buffer.h / circular_buffer.c -/

/-- The struct `CircularBuffer`; `buffer` is the content of the allocation. -/
structure CircularBuffer where
  buffer : List Measurement
  head : Nat
  tail : Nat
  max_size : Nat
  full : Bool
deriving DecidableEq, Repr

/-- Effect of `memset(buf, 0, n * sizeof(Measurement))`: the first `n` slots become zero. -/
def memset_zero (buf : List Measurement) (n : Nat) : List Measurement :=
  List.replicate (min n buf.length) Measurement.zero ++ buf.drop n

/-- Function `circular_buffer_reset`. -/
def circular_buffer_reset (cbuf : CircularBuffer) : CircularBuffer :=
  { cbuf with
    head := 0
    tail := 0
    full := false
    buffer := memset_zero cbuf.buffer cbuf.max_size }

/-- Function `circular_buffer_init`. The argument `mem` is the (uninitialised) content of the
block that `malloc` returned; `cbuf` is the caller's struct before the call. -/
def circular_buffer_init (cbuf : CircularBuffer) (size : Nat) (mem : List Measurement) :
    CircularBuffer :=
  circular_buffer_reset { cbuf with buffer := mem, max_size := size }

/-- Function `circular_buffer_put`. -/
def circular_buffer_put (cbuf : CircularBuffer) (data : Measurement) : CircularBuffer :=
  let buffer := cbuf.buffer.set cbuf.head data
  let tail := if cbuf.full then szAdd cbuf.tail 1 % cbuf.max_size else cbuf.tail
  let head := szAdd cbuf.head 1 % cbuf.max_size
  { cbuf with buffer := buffer, tail := tail, head := head, full := decide (head = tail) }

/-- Function `circular_buffer_empty`. -/
def circular_buffer_empty (cbuf : CircularBuffer) : Bool :=
  !cbuf.full && decide (cbuf.head = cbuf.tail)

/-- Function `circular_buffer_full`. -/
def circular_buffer_full (cbuf : CircularBuffer) : Bool :=
  cbuf.full

/-- Function `circular_buffer_get`. The argument `data` is the caller's measurement before the
call; the result is the returned flag, the buffer and the caller's measurement afterwards. -/
def circular_buffer_get (cbuf : CircularBuffer) (data : Measurement) :
    Bool × CircularBuffer × Measurement :=
  if circular_buffer_empty cbuf then
    (false, cbuf, data)
  else
    let data := cbuf.buffer.getD cbuf.tail Measurement.zero
    (true,
      { cbuf with tail := szAdd cbuf.tail 1 % cbuf.max_size, full := false },
      data)

/-- Function `circular_buffer_size`. -/
def circular_buffer_size (cbuf : CircularBuffer) : Nat :=
  if !cbuf.full then
    if cbuf.head ≥ cbuf.tail then
      szSub cbuf.head cbuf.tail
    else
      szSub (szAdd cbuf.max_size cbuf.head) cbuf.tail
  else
    cbuf.max_size

/-- In-place read of the sample at logical index `i`, the expression
`buffer[(tail + i) % max_size]` of `draw_temperature_graph`. -/
def peek_at (cbuf : CircularBuffer) (i : Nat) : Measurement :=
  cbuf.buffer.getD (szAdd cbuf.tail i % cbuf.max_size) Measurement.zero

/-- The logical sequence of a buffer: the samples at logical indices `0 .. size()-1`. -/
def logical (cbuf : CircularBuffer) : List Measurement :=
  (List.range (circular_buffer_size cbuf)).map (peek_at cbuf)

/-- A sequence of calls to `circular_buffer_put`, one per element, in order. -/
def put_all (cbuf : CircularBuffer) (xs : List Measurement) : CircularBuffer :=
  xs.foldl circular_buffer_put cbuf

/-- A measurement with the given temperature (other fields zero). -/
def sample (t : ℚ) : Measurement := { Measurement.zero with temperature := t }

/-- A caller's struct before initialisation, with arbitrary field values. -/
def stale : CircularBuffer := { buffer := [], head := 7, tail := 9, max_size := 1, full := true }

/-- The arbitrary content of a fresh allocation of three slots. -/
def junk3 : List Measurement := [sample 9, sample 8, sample 7]

/-! ## Sequences of buffer operations -/

/-- One call of the mutating interface of the buffer; `get` carries the caller's
measurement as it is before the call. -/
inductive Op where
  | put (data : Measurement)
  | get (data : Measurement)
  | reset
deriving DecidableEq, Repr

/-- The buffer after one call. -/
def step (b : CircularBuffer) : Op → CircularBuffer
  | Op.put data => circular_buffer_put b data
  | Op.get data => (circular_buffer_get b data).2.1
  | Op.reset => circular_buffer_reset b

/-- The buffer after a sequence of calls, performed in order. -/
def run (b : CircularBuffer) (ops : List Op) : CircularBuffer :=
  ops.foldl step b

/-- The buffer states that `circular_buffer_init` with capacity `C`, followed by any sequence
of put / get / reset calls, can produce. -/
def Reachable (C : Nat) (b : CircularBuffer) : Prop :=
  ∃ (cbuf : CircularBuffer) (mem : List Measurement) (ops : List Op),
    mem.length = C ∧ b = run (circular_buffer_init cbuf C mem) ops

/-- Counter update for the number of puts since the last reset. -/
def count_put (n : Nat) : Op → Nat
  | Op.put _ => n + 1
  | Op.get _ => n
  | Op.reset => 0

/-- Counter update for the number of puts since the last reset or get. -/
def count_put_after_get (n : Nat) : Op → Nat
  | Op.put _ => n + 1
  | Op.get _ => 0
  | Op.reset => 0

/-- Number of `circular_buffer_put` calls of a sequence since its last reset (since the
initialisation when it has no reset). -/
def puts_since_reset (ops : List Op) : Nat := ops.foldl count_put 0

/-- Number of `circular_buffer_put` calls of a sequence since its last reset or get (since
the initialisation when it has neither). -/
def puts_since_reset_or_get (ops : List Op) : Nat := ops.foldl count_put_after_get 0

/-! ## sht30.c -/

/-- What the I2C bus and the clock answer during one call of `sht30_read`: the results of
`furi_hal_i2c_tx` and `furi_hal_i2c_rx` (true on success), the six bytes found in `data`
after the receive call, and the value of `furi_hal_rtc_get_datetime`. -/
structure SensorBus where
  tx_ok : Bool
  rx_ok : Bool
  data : List Nat
  now : DateTime
deriving DecidableEq, Repr

/-- Function `sht30_read`. The argument `measurement` is the caller's measurement before the
call; the result is the returned flag and the caller's measurement afterwards. The results
of the transmit and of the receive call are discarded, as in the source. -/
def sht30_read (bus : SensorBus) (measurement : Measurement) : Bool × Measurement :=
  let _tx := bus.tx_ok
  let _rx := bus.rx_ok
  let data := fun i => bus.data.getD i 0
  let measurement := { measurement with
    temperature := (((data 0 <<< 8) ||| data 1 : Nat) : ℚ) * 175 / 65535 - 45 }
  let measurement := { measurement with
    humidity := (((data 3 <<< 8) ||| data 4 : Nat) : ℚ) * 100 / 65535 }
  let measurement := { measurement with timestamp := bus.now }
  (true, measurement)

/-! ## flippy_temp.c: timer callbacks -/

/-- The struct `flippyTempContext`: the fields the timer callbacks and the graph read or
write. The three counters record the calls of `view_port_update`, of
`furi_semaphore_release` on `log_semaphore` and of `notification_message`. -/
structure flippyTempContext where
  temp_buffer : CircularBuffer
  is_running : Bool
  info_screen_visible : Bool
  current_measurement : Measurement
  view_port_updates : Nat
  log_signals : Nat
  notifications : Nat
deriving DecidableEq, Repr

/-- Function `buffer_timer_callback`; `bus` is what the bus and the clock answer during its
call of `sht30_read`. -/
def buffer_timer_callback (bus : SensorBus) (context : flippyTempContext) : flippyTempContext :=
  let r := sht30_read bus context.current_measurement
  let context := { context with current_measurement := r.2 }
  if r.1 && !context.info_screen_visible then
    let context := { context with
      temp_buffer := circular_buffer_put context.temp_buffer context.current_measurement }
    let context := { context with view_port_updates := context.view_port_updates + 1 }
    let context := { context with log_signals := context.log_signals + 1 }
    { context with notifications := context.notifications + 1 }
  else
    context

/-- Function `header_timer_callback`; `bus` is what the bus and the clock answer during its
call of `sht30_read`. -/
def header_timer_callback (bus : SensorBus) (context : flippyTempContext) : flippyTempContext :=
  let r := sht30_read bus context.current_measurement
  let context := { context with current_measurement := r.2 }
  if r.1 then
    { context with view_port_updates := context.view_port_updates + 1 }
  else
    context

/-- A bus on which both the transmit and the receive call fail. -/
def dead_bus : SensorBus :=
  { tx_ok := false, rx_ok := false, data := [0, 0, 0, 0, 0, 0],
    now := { year := 2024, month := 1, day := 1, hour := 0, minute := 0, second := 0 } }

/-- A context whose ring holds two samples. -/
def demo_context : flippyTempContext :=
  { temp_buffer := put_all (circular_buffer_init stale 3 junk3) [sample 20, sample 21],
    is_running := true, info_screen_visible := false, current_measurement := sample 21,
    view_port_updates := 0, log_signals := 0, notifications := 0 }

/-! ## flippy_temp.c: the temperature graph -/

/-- One call of `canvas_draw_line`. -/
structure Line where
  x1 : Int
  y1 : Int
  x2 : Int
  y2 : Int
deriving DecidableEq, Repr

/-- What `draw_temperature_graph` puts on the canvas: the text "No data yet", or the lines of
the graph together with the arguments of the two legend calls. The vertical range that
divides is recorded as `temp_range`. -/
inductive GraphDrawing where
  | no_data
  | graph (min_temp max_temp temp_range : ℚ) (lines : List Line)
      (timestamp_first timestamp_middle timestamp_last : DateTime)
deriving DecidableEq, Repr

/-- The first loop of `draw_temperature_graph`: minimum and maximum of the held samples. -/
def temp_bounds (cbuf : CircularBuffer) (buffer_size : Nat) : ℚ × ℚ :=
  let t0 := (cbuf.buffer.getD cbuf.tail Measurement.zero).temperature
  (List.range buffer_size).foldl
    (fun (mm : ℚ × ℚ) (i : Nat) =>
      let temp := (peek_at cbuf i).temperature
      let min_temp := if temp < mm.1 then temp else mm.1
      let max_temp := if temp > mm.2 then temp else mm.2
      (min_temp, max_temp))
    (t0, t0)

/-- The vertical range of `draw_temperature_graph`, after the replacement of 0 by 1. -/
def graph_temp_range (min_temp max_temp : ℚ) : ℚ :=
  let temp_range := max_temp - min_temp
  if temp_range = 0 then 1 else temp_range

/-- The body of the second loop of `draw_temperature_graph`: the line drawn for index `i`. -/
def graph_line (cbuf : CircularBuffer) (min_temp temp_range x_step : ℚ)
    (graph_height left_padding bottom_padding : Int) (i : Nat) : Line :=
  let temp_prev :=
    (cbuf.buffer.getD (szSub (szAdd cbuf.tail i) 1 % cbuf.max_size) Measurement.zero).temperature
  let temp_curr := (peek_at cbuf i).temperature
  { x1 := truncToInt (((szSub i 1 : Nat) : ℚ) * x_step) + left_padding
    y1 := 64 - bottom_padding - truncToInt ((temp_prev - min_temp) / temp_range * graph_height)
    x2 := truncToInt ((i : ℚ) * x_step) + left_padding
    y2 := 64 - bottom_padding - truncToInt ((temp_curr - min_temp) / temp_range * graph_height) }

/-- Function `draw_temperature_graph` (with `draw_x_axis_legends` and
`draw_y_axis_legends` reduced to their arguments). -/
def draw_temperature_graph (context : flippyTempContext)
    (graph_width graph_height left_padding bottom_padding : Int) : GraphDrawing :=
  let cbuf := context.temp_buffer
  let buffer_size := circular_buffer_size cbuf
  if buffer_size > 0 then
    let mm := temp_bounds cbuf buffer_size
    let min_temp := mm.1
    let max_temp := mm.2
    let temp_range := graph_temp_range min_temp max_temp
    let x_step : ℚ := (graph_width : ℚ) / ((szSub buffer_size 1 : Nat) : ℚ)
    let lines := (List.range' 1 (buffer_size - 1)).map
      (graph_line cbuf min_temp temp_range x_step graph_height left_padding bottom_padding)
    GraphDrawing.graph min_temp max_temp temp_range lines
      (cbuf.buffer.getD cbuf.tail Measurement.zero).timestamp
      (cbuf.buffer.getD (szAdd cbuf.tail (buffer_size / 2) % cbuf.max_size)
        Measurement.zero).timestamp
      (cbuf.buffer.getD (szSub (szAdd cbuf.tail buffer_size) 1 % cbuf.max_size)
        Measurement.zero).timestamp
  else
    GraphDrawing.no_data

/-- The vertical range a drawing divided by, if it has a graph. -/
def GraphDrawing.range? : GraphDrawing → Option ℚ
  | GraphDrawing.no_data => none
  | GraphDrawing.graph _ _ temp_range _ _ _ _ => some temp_range

/-- The lines of a drawing. -/
def GraphDrawing.lines : GraphDrawing → List Line
  | GraphDrawing.no_data => []
  | GraphDrawing.graph _ _ _ lines _ _ _ => lines

/-- A context whose ring holds three readings of 22 degrees (capacity 3). -/
def flat_context : flippyTempContext :=
  { demo_context with
    temp_buffer := put_all (circular_buffer_init stale 3 junk3) [sample 22, sample 22, sample 22] }

/-! ## Well-formed buffer states -/

/-- The representation invariant of a buffer of capacity `C`. -/
def WF (C : Nat) (b : CircularBuffer) : Prop :=
  b.max_size = C ∧ b.buffer.length = C ∧ b.head < C ∧ b.tail < C ∧
    (b.full = true → b.head = b.tail)

/-- The physical slot of logical index `i` when the oldest sample is in slot `t`. -/
def slot (C t i : Nat) : Nat := if t + i < C then t + i else t + i - C

/-- The index invariant of the ring: `head < max_size`, `tail < max_size` and
`full` implies `head == tail`. -/
def ring_inv (b : CircularBuffer) : Prop :=
  b.head < b.max_size ∧ b.tail < b.max_size ∧ (b.full = true → b.head = b.tail)

instance (b : CircularBuffer) : Decidable (ring_inv b) := by
  unfold ring_inv
  infer_instance

/-! ## Lemmas -/

theorem mod_wrap {a n : Nat} (h : a < 2 * n) : a % n = if a < n then a else a - n := by
  split
  · exact Nat.mod_eq_of_lt (by assumption)
  · rw [Nat.mod_eq_sub_mod (by omega)]
    exact Nat.mod_eq_of_lt (by omega)

theorem szAdd_eq {a b : Nat} (h : a + b < SIZE_MOD) : szAdd a b = a + b := by
  unfold szAdd
  exact Nat.mod_eq_of_lt h

theorem next_idx {a C : Nat} (h : a < C) (hS : C < SIZE_MOD) :
    szAdd a 1 % C = if a + 1 = C then 0 else a + 1 := by
  rw [szAdd_eq (by omega), mod_wrap (by omega)]
  split <;> split <;> omega

theorem size_eq {C : Nat} {b : CircularBuffer} (hw : WF C b) (hS : C < SIZE_MOD) :
    circular_buffer_size b =
      if b.full = true then C
      else if b.tail ≤ b.head then b.head - b.tail else C + b.head - b.tail := by
  obtain ⟨hm, -, hh, ht, -⟩ := hw
  unfold circular_buffer_size szSub szAdd
  rw [hm]
  unfold SIZE_MOD at *
  cases b.full <;> simp
  split <;> omega

theorem init_eq (cbuf : CircularBuffer) (C : Nat) (mem : List Measurement)
    (hmem : mem.length = C) :
    circular_buffer_init cbuf C mem =
      { buffer := List.replicate C Measurement.zero, head := 0, tail := 0,
        max_size := C, full := false } := by
  simp [circular_buffer_init, circular_buffer_reset, memset_zero, hmem]

theorem wf_init (cbuf : CircularBuffer) {C : Nat} (mem : List Measurement)
    (hmem : mem.length = C) (hC : 0 < C) : WF C (circular_buffer_init cbuf C mem) := by
  rw [init_eq cbuf C mem hmem]
  simp [WF, hC]

theorem wf_reset {C : Nat} {b : CircularBuffer} (hw : WF C b) :
    WF C (circular_buffer_reset b) := by
  obtain ⟨hm, hl, hh, ht, -⟩ := hw
  simp [WF, circular_buffer_reset, memset_zero, hm, hl]
  omega

theorem wf_put {C : Nat} {b : CircularBuffer} (hw : WF C b)
    (x : Measurement) : WF C (circular_buffer_put b x) := by
  obtain ⟨hm, hl, hh, ht, hf⟩ := hw
  have hC : 0 < C := by omega
  simp only [WF, circular_buffer_put, hm, List.length_set, hl, decide_eq_true_eq, true_and]
  refine ⟨Nat.mod_lt _ hC, ?_, fun h => h⟩
  split
  · exact Nat.mod_lt _ hC
  · exact ht

theorem wf_get {C : Nat} {b : CircularBuffer} (hw : WF C b) (d : Measurement) :
    WF C (circular_buffer_get b d).2.1 := by
  unfold circular_buffer_get
  split
  · exact hw
  · obtain ⟨hm, hl, hh, ht, hf⟩ := hw
    have hC : 0 < C := by omega
    simp only [WF, hm, hl, true_and]
    exact ⟨hh, Nat.mod_lt _ hC, by simp⟩

theorem size_put {C : Nat} {b : CircularBuffer} (hw : WF C b) (hS : C < SIZE_MOD)
    (x : Measurement) :
    circular_buffer_size (circular_buffer_put b x) = min (circular_buffer_size b + 1) C := by
  rw [size_eq (wf_put hw x) hS, size_eq hw hS]
  obtain ⟨hm, hl, hh, ht, hf⟩ := hw
  simp only [circular_buffer_put, hm, next_idx hh hS, next_idx ht hS, decide_eq_true_eq]
  cases hfull : b.full
  · simp only [Bool.false_eq_true, if_false]
    split_ifs <;> omega
  · have := hf hfull
    simp only [if_true]
    split_ifs <;> omega

theorem size_put_all {C : Nat} (hS : C < SIZE_MOD) (xs : List Measurement) :
    ∀ b : CircularBuffer, WF C b →
      WF C (put_all b xs) ∧
        circular_buffer_size (put_all b xs) = min (circular_buffer_size b + xs.length) C := by
  induction xs with
  | nil =>
    intro b hw
    refine ⟨hw, ?_⟩
    have := size_eq hw hS
    obtain ⟨hm, hl, hh, ht, hf⟩ := hw
    simp only [put_all, List.foldl_nil, List.length_nil, Nat.add_zero]
    rw [this]
    split_ifs <;> omega
  | cons x xs ih =>
    intro b hw
    have h := ih (circular_buffer_put b x) (wf_put hw x)
    refine ⟨h.1, ?_⟩
    have h2 := h.2
    rw [size_put hw hS x] at h2
    simp only [put_all, List.foldl_cons, List.length_cons] at h2 ⊢
    rw [h2]
    omega

theorem peek_at_slot {C : Nat} {b : CircularBuffer} (hw : WF C b) (hS : 2 * C ≤ SIZE_MOD)
    {i : Nat} (hi : i ≤ C) :
    peek_at b i = (b.buffer[slot C b.tail i]?).getD Measurement.zero := by
  obtain ⟨hm, hl, hh, ht, hf⟩ := hw
  unfold peek_at slot
  rw [szAdd_eq (by omega), hm, mod_wrap (by omega), List.getD_eq_getElem?_getD]

theorem size_le {C : Nat} {b : CircularBuffer} (hw : WF C b) (hS : C < SIZE_MOD) :
    circular_buffer_size b ≤ C := by
  rw [size_eq hw hS]
  obtain ⟨hm, hl, hh, ht, hf⟩ := hw
  split_ifs <;> omega

theorem peek_put {C : Nat} {b : CircularBuffer} (hw : WF C b) (hS : 2 * C ≤ SIZE_MOD)
    (x : Measurement) {i : Nat} (hi : i < circular_buffer_size (circular_buffer_put b x)) :
    peek_at (circular_buffer_put b x) i =
      if i + (circular_buffer_size b + 1 - C) < circular_buffer_size b
      then peek_at b (i + (circular_buffer_size b + 1 - C)) else x := by
  have hC : 0 < C := by have := hw.2.2.1; omega
  have hS1 : C < SIZE_MOD := by omega
  have hle := size_le hw hS1
  rw [size_put hw hS1] at hi
  have hiC : i < C := by omega
  rw [peek_at_slot (wf_put hw x) hS (by omega)]
  split
  · rw [peek_at_slot hw hS (by omega)]
    rw [size_eq hw hS1] at *
    obtain ⟨hm, hl, hh, ht, hf⟩ := hw
    simp only [circular_buffer_put, hm, next_idx ht hS1, List.getElem?_set, slot]
    congr 1
    cases hfull : b.full
    · simp only [hfull, Bool.false_eq_true, if_false] at *
      split_ifs at * <;> first | omega | (congr 1; omega)
    · have := hf hfull
      simp only [hfull, if_true] at *
      split_ifs at * <;> first | omega | (congr 1; omega)
  · rw [size_eq hw hS1] at *
    obtain ⟨hm, hl, hh, ht, hf⟩ := hw
    simp only [circular_buffer_put, hm, next_idx ht hS1, List.getElem?_set, slot, hl]
    cases hfull : b.full
    · simp only [hfull, Bool.false_eq_true, if_false] at *
      split_ifs at * <;> first | omega | rfl
    · have := hf hfull
      simp only [hfull, if_true] at *
      split_ifs at * <;> first | omega | rfl

theorem logical_getElem_opt (b : CircularBuffer) (i : Nat) :
    (logical b)[i]? = if i < circular_buffer_size b then some (peek_at b i) else none := by
  unfold logical
  rw [List.getElem?_map]
  split
  · rw [List.getElem?_range (by assumption)]
    rfl
  · rw [List.getElem?_eq_none (by simpa using (by omega))]
    rfl

theorem logical_put {C : Nat} {b : CircularBuffer} (hw : WF C b) (hS : 2 * C ≤ SIZE_MOD)
    (hC : 0 < C) (x : Measurement) :
    logical (circular_buffer_put b x) =
      (logical b ++ [x]).drop (circular_buffer_size b + 1 - C) := by
  have hS1 : C < SIZE_MOD := by omega
  have hle := size_le hw hS1
  apply List.ext_getElem?
  intro i
  rw [logical_getElem_opt, List.getElem?_drop, List.getElem?_append, logical_getElem_opt]
  have hlen : (logical b).length = circular_buffer_size b := by simp [logical]
  rw [hlen]
  by_cases hi : i < circular_buffer_size (circular_buffer_put b x)
  · rw [if_pos hi, peek_put hw hS x hi]
    rw [size_put hw hS1] at hi
    by_cases h2 : i + (circular_buffer_size b + 1 - C) < circular_buffer_size b
    · rw [if_pos h2, if_pos (by omega), if_pos (by omega)]
      congr 2
      omega
    · rw [if_neg h2, if_neg (by omega)]
      have : circular_buffer_size b + 1 - C + i - circular_buffer_size b = 0 := by omega
      rw [this]
      rfl
  · rw [if_neg hi]
    rw [size_put hw hS1] at hi
    rw [if_neg (by omega)]
    symm
    rw [List.getElem?_eq_none]
    simp
    omega

theorem drop_step (l : List Measurement) (x : Measurement) {C : Nat} (hC : 0 < C) :
    (l.drop (l.length - C) ++ [x]).drop (min l.length C + 1 - C) =
      (l ++ [x]).drop (l.length + 1 - C) := by
  apply List.ext_getElem?
  intro i
  simp only [List.getElem?_drop, List.getElem?_append, List.length_drop]
  split_ifs <;> first | omega | (congr 1; omega)

theorem logical_put_all {C : Nat} (hC : 0 < C) (hS : 2 * C ≤ SIZE_MOD) (xs : List Measurement) :
    ∀ (b : CircularBuffer) (l : List Measurement), WF C b →
      circular_buffer_size b = min l.length C → logical b = l.drop (l.length - C) →
      logical (put_all b xs) = (l ++ xs).drop ((l ++ xs).length - C) := by
  have hS1 : C < SIZE_MOD := by omega
  induction xs with
  | nil =>
    intro b l _ _ hl
    simpa [put_all] using hl
  | cons x xs ih =>
    intro b l hw hsz hl
    have h := ih (circular_buffer_put b x) (l ++ [x]) (wf_put hw x)
      (by rw [size_put hw hS1, hsz]; simp only [List.length_append, List.length_singleton]; omega)
      (by rw [logical_put hw hS hC, hl, hsz, drop_step l x hC]
          simp only [List.length_append, List.length_singleton])
    simpa [put_all] using h

theorem wf_step {C : Nat} {b : CircularBuffer} (hw : WF C b) (op : Op) : WF C (step b op) := by
  cases op with
  | put data => exact wf_put hw data
  | get data => exact wf_get hw data
  | reset => exact wf_reset hw

theorem wf_run {C : Nat} (ops : List Op) :
    ∀ b : CircularBuffer, WF C b → WF C (run b ops) := by
  induction ops with
  | nil => intro b hw; exact hw
  | cons op ops ih => intro b hw; exact ih (step b op) (wf_step hw op)

theorem wf_of_reachable {C : Nat} {b : CircularBuffer} (hC : 0 < C) (hr : Reachable C b) :
    WF C b := by
  obtain ⟨cbuf, mem, ops, hmem, rfl⟩ := hr
  exact wf_run ops _ (wf_init cbuf mem hmem hC)

theorem get_of_not_empty {b : CircularBuffer} (d : Measurement)
    (hne : circular_buffer_empty b = false) :
    circular_buffer_get b d =
      (true, { b with tail := szAdd b.tail 1 % b.max_size, full := false },
        b.buffer.getD b.tail Measurement.zero) := by
  simp [circular_buffer_get, hne]

theorem size_get {C : Nat} {b : CircularBuffer} (hw : WF C b) (hS : C < SIZE_MOD)
    (d : Measurement) (hne : circular_buffer_empty b = false) :
    circular_buffer_size (circular_buffer_get b d).2.1 + 1 = circular_buffer_size b := by
  rw [size_eq (wf_get hw d) hS, size_eq hw hS, get_of_not_empty d hne]
  obtain ⟨hm, hl, hh, ht, hf⟩ := hw
  simp only [hm, next_idx ht hS, Bool.false_eq_true, if_false]
  unfold circular_buffer_empty at hne
  cases hfull : b.full
  · simp only [hfull, Bool.not_false, Bool.true_and, decide_eq_false_iff_not] at hne
    simp only [Bool.false_eq_true, if_false]
    split_ifs <;> omega
  · have := hf hfull
    simp only [if_true]
    split_ifs <;> omega

theorem peek_get {C : Nat} {b : CircularBuffer} (hw : WF C b) (hS : 2 * C ≤ SIZE_MOD)
    (d : Measurement) (hne : circular_buffer_empty b = false) {i : Nat}
    (hi : i + 1 < circular_buffer_size b) :
    peek_at (circular_buffer_get b d).2.1 i = peek_at b (i + 1) := by
  have hC : 0 < C := by have := hw.2.2.1; omega
  have hS1 : C < SIZE_MOD := by omega
  have hle := size_le hw hS1
  rw [peek_at_slot (wf_get hw d) hS (by omega), peek_at_slot hw hS (by omega),
    get_of_not_empty d hne]
  obtain ⟨hm, hl, hh, ht, hf⟩ := hw
  simp only [hm, next_idx ht hS1, slot]
  congr 2
  split_ifs <;> omega

theorem empty_iff_size_zero {C : Nat} {b : CircularBuffer} (hw : WF C b) (hS : C < SIZE_MOD) :
    circular_buffer_empty b = true ↔ circular_buffer_size b = 0 := by
  rw [size_eq hw hS]
  obtain ⟨hm, hl, hh, ht, hf⟩ := hw
  unfold circular_buffer_empty
  cases hfull : b.full
  · simp only [Bool.not_false, Bool.true_and, decide_eq_true_eq, Bool.false_eq_true, if_false]
    split_ifs <;> omega
  · simp only [Bool.not_true, Bool.false_and, Bool.false_eq_true, if_true, false_iff]
    omega

theorem size_reset {C : Nat} {b : CircularBuffer} (hw : WF C b) (hS : C < SIZE_MOD) :
    circular_buffer_size (circular_buffer_reset b) = 0 := by
  rw [size_eq (wf_reset hw) hS]
  simp [circular_buffer_reset]

theorem size_pos_put {C : Nat} {b : CircularBuffer} (hw : WF C b) (hS : C < SIZE_MOD)
    (x : Measurement) : 0 < circular_buffer_size (circular_buffer_put b x) := by
  have hC : 0 < C := by have := hw.2.2.1; omega
  rw [size_put hw hS]
  omega

theorem run_put_tail {C : Nat} (hS : C < SIZE_MOD) (ops : List Op) :
    ∀ (b : CircularBuffer) (n : Nat), WF C b →
      (0 < n → 0 < circular_buffer_size b) →
      (0 < ops.foldl count_put_after_get n → 0 < circular_buffer_size (run b ops)) := by
  induction ops with
  | nil => intro b n _ h; exact h
  | cons op ops ih =>
    intro b n hw h
    simp only [List.foldl_cons, run]
    refine ih (step b op) (count_put_after_get n op) (wf_step hw op) ?_
    cases op with
    | put data =>
      intro _
      exact size_pos_put hw hS data
    | get data =>
      intro hn
      simp [count_put_after_get] at hn
    | reset =>
      intro hn
      simp [count_put_after_get] at hn

theorem sht30_read_flag (bus : SensorBus) (m : Measurement) : (sht30_read bus m).1 = true := rfl

theorem buffer_timer_callback_ring (bus : SensorBus) (context : flippyTempContext) :
    (buffer_timer_callback bus context).temp_buffer =
      if context.info_screen_visible = true then context.temp_buffer
      else circular_buffer_put context.temp_buffer
        (sht30_read bus context.current_measurement).2 := by
  unfold buffer_timer_callback
  cases h : context.info_screen_visible <;> simp [sht30_read_flag]

theorem header_timer_callback_ring (bus : SensorBus) (context : flippyTempContext) :
    (header_timer_callback bus context).temp_buffer = context.temp_buffer := by
  simp only [header_timer_callback]
  split <;> rfl

theorem peek_at_zero {C : Nat} {b : CircularBuffer} (hw : WF C b) (hS : C < SIZE_MOD) :
    peek_at b 0 = b.buffer.getD b.tail Measurement.zero := by
  obtain ⟨hm, hl, hh, ht, hf⟩ := hw
  unfold peek_at
  rw [szAdd_eq (by omega), hm, Nat.add_zero, Nat.mod_eq_of_lt ht]

theorem szSub_szAdd_one (t i : Nat) (hi : 1 ≤ i) : szSub (szAdd t i) 1 = szAdd t (i - 1) := by
  unfold szSub szAdd SIZE_MOD
  omega

theorem bounds_fold_flat (f : Nat → ℚ) (t : ℚ) (l : List Nat) (h : ∀ i ∈ l, f i = t) :
    l.foldl
      (fun (mm : ℚ × ℚ) (i : Nat) =>
        ((if f i < mm.1 then f i else mm.1), (if f i > mm.2 then f i else mm.2)))
      (t, t) = (t, t) := by
  induction l with
  | nil => rfl
  | cons a l ih =>
    have ha : f a = t := h a (List.mem_cons_self a l)
    simp only [List.foldl_cons, ha, lt_self_iff_false, gt_iff_lt, if_false]
    exact ih (fun i hi => h i (List.mem_cons_of_mem a hi))

theorem temp_bounds_flat {C : Nat} {b : CircularBuffer} (hw : WF C b) (hS : C < SIZE_MOD)
    (t : ℚ) (hne : 0 < circular_buffer_size b)
    (hflat : ∀ i, i < circular_buffer_size b → (peek_at b i).temperature = t) :
    temp_bounds b (circular_buffer_size b) = (t, t) := by
  unfold temp_bounds
  rw [← peek_at_zero hw hS, hflat 0 hne]
  exact bounds_fold_flat (fun i => (peek_at b i).temperature) t _
    (fun i hi => hflat i (List.mem_range.1 hi))

theorem graph_line_flat (b : CircularBuffer) (t x_step : ℚ)
    (graph_height left_padding bottom_padding : Int) (i : Nat) (hi : 1 ≤ i)
    (hprev : (peek_at b (i - 1)).temperature = t) (hcurr : (peek_at b i).temperature = t) :
    (graph_line b t 1 x_step graph_height left_padding bottom_padding i).y1
        = 64 - bottom_padding ∧
      (graph_line b t 1 x_step graph_height left_padding bottom_padding i).y2
        = 64 - bottom_padding := by
  have hp : (b.buffer.getD (szSub (szAdd b.tail i) 1 % b.max_size) Measurement.zero).temperature
      = t := by
    rw [szSub_szAdd_one b.tail i hi]
    exact hprev
  simp only [graph_line, hp, hcurr, sub_self, zero_div, zero_mul, truncToInt, le_refl, if_true,
    Int.floor_zero, sub_zero, and_self]

/-! ## Theorems -/

/-- C1: after `N` calls of `circular_buffer_put` on a buffer freshly initialised with a
capacity `C > 0`, `circular_buffer_size` returns `min N C`. -/
theorem size_after_puts (C : Nat) (cbuf : CircularBuffer) (mem xs : List Measurement)
    (hC : 0 < C) (hS : C < SIZE_MOD) (hmem : mem.length = C) :
    circular_buffer_size (put_all (circular_buffer_init cbuf C mem) xs) = min xs.length C := by
  have h := (size_put_all hS xs _ (wf_init cbuf mem hmem hC)).2
  rw [h, init_eq cbuf C mem hmem]
  simp [circular_buffer_size, szSub, SIZE_MOD]

theorem size_after_puts_witness :
    0 < 3 ∧ 3 < SIZE_MOD ∧
      circular_buffer_size (put_all (circular_buffer_init stale 3
        junk3) [sample 1, sample 2, sample 3, sample 4]) = min 4 3 :=
  ⟨by decide, by decide,
    size_after_puts 3 stale junk3
      [sample 1, sample 2, sample 3, sample 4] (by decide) (by decide) rfl⟩

/-- C2: after the measurements `xs` have been put in order into a freshly initialised buffer
of capacity `C > 0`, the logical sequence `buffer[(tail + i) % max_size]`, `i < size()`, is
the last `min |xs| C` elements of `xs`, oldest first; after `C + 1` puts, index `0` holds the
second value put and index `size() - 1` the last one. -/
theorem logical_after_puts (C : Nat) (cbuf : CircularBuffer) (mem xs : List Measurement)
    (hC : 0 < C) (hS : 2 * C ≤ SIZE_MOD) (hmem : mem.length = C) :
    logical (put_all (circular_buffer_init cbuf C mem) xs)
        = xs.drop (xs.length - min xs.length C) ∧
      (xs.length = C + 1 →
        some (peek_at (put_all (circular_buffer_init cbuf C mem) xs) 0) = xs[1]? ∧
        some (peek_at (put_all (circular_buffer_init cbuf C mem) xs)
          (circular_buffer_size (put_all (circular_buffer_init cbuf C mem) xs) - 1)) = xs[C]?) := by
  have hS1 : C < SIZE_MOD := by omega
  have hw := wf_init cbuf mem hmem hC
  have hsz0 : circular_buffer_size (circular_buffer_init cbuf C mem) = 0 := by
    rw [init_eq cbuf C mem hmem]
    simp [circular_buffer_size, szSub, SIZE_MOD]
  have hmain := logical_put_all hC hS xs (circular_buffer_init cbuf C mem) [] hw
    (by simpa using hsz0) (by simp [logical, hsz0])
  have hsz := (size_put_all hS1 xs _ hw).2
  rw [hsz0, Nat.zero_add] at hsz
  simp only [List.nil_append] at hmain
  have hdrop : xs.length - min xs.length C = xs.length - C := by omega
  refine ⟨by rw [hmain, hdrop], ?_⟩
  intro hlen
  have h0 := logical_getElem_opt (put_all (circular_buffer_init cbuf C mem) xs) 0
  have h1 := logical_getElem_opt (put_all (circular_buffer_init cbuf C mem) xs)
    (circular_buffer_size (put_all (circular_buffer_init cbuf C mem) xs) - 1)
  rw [hmain, List.getElem?_drop] at h0 h1
  rw [hsz, hlen] at h0 h1 ⊢
  rw [if_pos (by omega)] at h0 h1
  have e0 : C + 1 - C + 0 = 1 := by omega
  have e1 : C + 1 - C + (min (C + 1) C - 1) = C := by omega
  rw [e0] at h0
  rw [e1] at h1
  exact ⟨h0.symm, h1.symm⟩

theorem logical_after_puts_witness :
    0 < 3 ∧ 2 * 3 ≤ SIZE_MOD ∧
      logical (put_all (circular_buffer_init stale 3
          junk3) [sample 1, sample 2, sample 3, sample 4])
        = [sample 2, sample 3, sample 4] ∧
      some (peek_at (put_all (circular_buffer_init stale 3
          junk3) [sample 1, sample 2, sample 3, sample 4]) 0)
        = some (sample 2) ∧
      logical (put_all (circular_buffer_init stale 5
          [sample 9, sample 8, sample 7, sample 6, sample 5]) [sample 10, sample 11, sample 12])
        = [sample 10, sample 11, sample 12] :=
  ⟨by decide, by decide,
    (logical_after_puts 3 stale junk3
      [sample 1, sample 2, sample 3, sample 4] (by decide) (by decide) rfl).1,
    ((logical_after_puts 3 stale junk3
      [sample 1, sample 2, sample 3, sample 4] (by decide) (by decide) rfl).2 rfl).1,
    (logical_after_puts 5 stale
      [sample 9, sample 8, sample 7, sample 6, sample 5]
      [sample 10, sample 11, sample 12] (by decide) (by decide) rfl).1⟩

/-- C3: on a non-empty buffer reachable from `circular_buffer_init` with capacity `C > 0`,
`circular_buffer_get` returns true, writes out the oldest element `buffer[tail]` (logical
index 0), clears `full`, makes `size()` one less and moves every remaining element one
logical position down; `head`, `max_size` and the storage are untouched. -/
theorem get_removes_oldest (C : Nat) (b : CircularBuffer) (d : Measurement)
    (hC : 0 < C) (hS : 2 * C ≤ SIZE_MOD) (hr : Reachable C b)
    (hne : circular_buffer_empty b = false) :
    (circular_buffer_get b d).1 = true ∧
      b.buffer[b.tail]? = some (circular_buffer_get b d).2.2 ∧
      (circular_buffer_get b d).2.2 = peek_at b 0 ∧
      (circular_buffer_get b d).2.1.full = false ∧
      circular_buffer_size (circular_buffer_get b d).2.1 + 1 = circular_buffer_size b ∧
      (∀ i, i + 1 < circular_buffer_size b →
        peek_at (circular_buffer_get b d).2.1 i = peek_at b (i + 1)) ∧
      (circular_buffer_get b d).2.1.head = b.head ∧
      (circular_buffer_get b d).2.1.max_size = b.max_size ∧
      (circular_buffer_get b d).2.1.buffer = b.buffer := by
  have hw := wf_of_reachable hC hr
  have hS1 : C < SIZE_MOD := by omega
  refine ⟨?_, ?_, ?_, ?_, size_get hw hS1 d hne, fun i hi => peek_get hw hS d hne hi, ?_, ?_, ?_⟩
  · rw [get_of_not_empty d hne]
  · rw [get_of_not_empty d hne]
    obtain ⟨hm, hl, hh, ht, hf⟩ := hw
    simp only [List.getD_eq_getElem?_getD]
    rw [List.getElem?_eq_getElem (by omega)]
    rfl
  · rw [get_of_not_empty d hne, peek_at_slot hw hS (by omega)]
    obtain ⟨hm, hl, hh, ht, hf⟩ := hw
    simp only [List.getD_eq_getElem?_getD, slot]
    rw [if_pos (by omega)]
    rfl
  · rw [get_of_not_empty d hne]
  · rw [get_of_not_empty d hne]
  · rw [get_of_not_empty d hne]
  · rw [get_of_not_empty d hne]

theorem get_removes_oldest_witness :
    0 < 3 ∧ 2 * 3 ≤ SIZE_MOD ∧
      (circular_buffer_get (run (circular_buffer_init stale 3
          junk3)
          [Op.put (sample 1), Op.put (sample 2), Op.put (sample 3), Op.put (sample 4),
            Op.get (sample 0), Op.put (sample 5)]) (sample 0)).2.2 = sample 3 :=
  ⟨by decide, by decide,
    ((get_removes_oldest 3 (run (circular_buffer_init stale 3
          junk3)
          [Op.put (sample 1), Op.put (sample 2), Op.put (sample 3), Op.put (sample 4),
            Op.get (sample 0), Op.put (sample 5)]) (sample 0) (by decide) (by decide)
        ⟨stale, junk3, _, rfl, rfl⟩ (by decide)).2.2.1).trans (by decide)⟩

/-- C4: `circular_buffer_get` returns false exactly when `circular_buffer_empty` is true, and
then the buffer (head, tail, full, max_size, storage) and the caller's measurement are
unchanged. -/
theorem get_fails_iff_empty (b : CircularBuffer) (d : Measurement) :
    ((circular_buffer_get b d).1 = false ↔ circular_buffer_empty b = true) ∧
      (circular_buffer_empty b = true → circular_buffer_get b d = (false, b, d)) := by
  unfold circular_buffer_get
  cases circular_buffer_empty b <;> simp

theorem get_fails_iff_empty_witness :
    circular_buffer_empty (circular_buffer_init stale 3
        junk3) = true ∧
      circular_buffer_get (circular_buffer_init stale 3
        junk3) (sample 5) =
        (false, circular_buffer_init stale 3
          junk3, sample 5) :=
  ⟨by decide,
    (get_fails_iff_empty (circular_buffer_init stale 3
        junk3) (sample 5)).2 (by decide)⟩

/-- C5: in every buffer state reachable from `circular_buffer_init` with capacity `C > 0`,
`circular_buffer_full` returns true if and only if `circular_buffer_size` returns the
capacity `max_size`. -/
theorem full_iff_size_eq_capacity (C : Nat) (b : CircularBuffer)
    (hC : 0 < C) (hS : C < SIZE_MOD) (hr : Reachable C b) :
    circular_buffer_full b = true ↔ circular_buffer_size b = b.max_size := by
  have hw := wf_of_reachable hC hr
  rw [size_eq hw hS]
  obtain ⟨hm, hl, hh, ht, hf⟩ := hw
  unfold circular_buffer_full
  rw [hm]
  constructor
  · intro h
    rw [if_pos h]
  · intro h
    by_contra hn
    rw [if_neg hn] at h
    split_ifs at h <;> omega

theorem full_iff_size_eq_capacity_witness :
    0 < 3 ∧ 3 < SIZE_MOD ∧
      (circular_buffer_full (run (circular_buffer_init stale 3
          junk3)
          [Op.put (sample 1), Op.put (sample 2), Op.get (sample 0), Op.put (sample 3),
            Op.put (sample 4)]) = true ↔
        circular_buffer_size (run (circular_buffer_init stale 3
          junk3)
          [Op.put (sample 1), Op.put (sample 2), Op.get (sample 0), Op.put (sample 3),
            Op.put (sample 4)]) = 3) :=
  ⟨by decide, by decide,
    full_iff_size_eq_capacity 3 (run (circular_buffer_init stale 3
          junk3)
          [Op.put (sample 1), Op.put (sample 2), Op.get (sample 0), Op.put (sample 3),
            Op.put (sample 4)]) (by decide) (by decide) ⟨stale, junk3, _, rfl, rfl⟩⟩

/-- C6, counterexample: after one put followed by one get on a fresh buffer of capacity 3,
`circular_buffer_empty` is true although a put has been performed since the init. -/
theorem empty_after_put_then_get :
    0 < 3 ∧ 3 < SIZE_MOD ∧ junk3.length = 3 ∧
      circular_buffer_empty
        (run (circular_buffer_init stale 3 junk3) [Op.put (sample 1), Op.get (sample 0)]) = true ∧
      puts_since_reset [Op.put (sample 1), Op.get (sample 0)] = 1 := by
  decide

/-- C6, amended: for every sequence of put / get / reset calls on a buffer initialised with
capacity `C > 0`, if `circular_buffer_empty` is true in the resulting state then no put has
been performed since the last init, reset or get. -/
theorem empty_only_without_put_since_get (C : Nat) (cbuf : CircularBuffer)
    (mem : List Measurement) (ops : List Op)
    (hC : 0 < C) (hS : C < SIZE_MOD) (hmem : mem.length = C)
    (he : circular_buffer_empty (run (circular_buffer_init cbuf C mem) ops) = true) :
    puts_since_reset_or_get ops = 0 := by
  have hw := wf_init cbuf mem hmem hC
  have h := run_put_tail hS ops _ 0 hw (fun h0 => absurd h0 (Nat.lt_irrefl 0))
  have hz := (empty_iff_size_zero (wf_run ops _ hw) hS).1 he
  unfold puts_since_reset_or_get
  omega

theorem empty_only_without_put_since_get_witness :
    0 < 3 ∧ 3 < SIZE_MOD ∧
      circular_buffer_empty (run (circular_buffer_init stale 3 junk3)
        [Op.put (sample 1), Op.put (sample 2), Op.get (sample 0), Op.get (sample 0)]) = true ∧
      puts_since_reset_or_get
        [Op.put (sample 1), Op.put (sample 2), Op.get (sample 0), Op.get (sample 0)] = 0 :=
  ⟨by decide, by decide, by decide,
    empty_only_without_put_since_get 3 stale junk3
      [Op.put (sample 1), Op.put (sample 2), Op.get (sample 0), Op.get (sample 0)]
      (by decide) (by decide) rfl (by decide)⟩

/-- C7: `circular_buffer_reset` applied to any buffer state of capacity `C` yields exactly the
state produced by `circular_buffer_init` with capacity `C`: head 0, tail 0, full false,
`max_size` unchanged, every storage slot zero; afterwards `empty()` is true and `size()` is 0,
and a second reset changes nothing. -/
theorem reset_eq_init (C : Nat) (b cbuf : CircularBuffer) (mem : List Measurement)
    (hcap : b.max_size = C) (hlen : b.buffer.length = C) (hmem : mem.length = C) :
    circular_buffer_reset b = circular_buffer_init cbuf C mem ∧
      (circular_buffer_reset b).head = 0 ∧
      (circular_buffer_reset b).tail = 0 ∧
      (circular_buffer_reset b).full = false ∧
      (circular_buffer_reset b).max_size = b.max_size ∧
      (circular_buffer_reset b).buffer = List.replicate C Measurement.zero ∧
      circular_buffer_empty (circular_buffer_reset b) = true ∧
      circular_buffer_size (circular_buffer_reset b) = 0 ∧
      circular_buffer_reset (circular_buffer_reset b) = circular_buffer_reset b := by
  have hbuf : (circular_buffer_reset b).buffer = List.replicate C Measurement.zero := by
    simp [circular_buffer_reset, memset_zero, hcap, hlen]
  refine ⟨?_, rfl, rfl, rfl, rfl, hbuf, rfl, ?_, ?_⟩
  · rw [init_eq cbuf C mem hmem]
    simp [circular_buffer_reset, memset_zero, hcap, hlen]
  · simp [circular_buffer_size, circular_buffer_reset, szSub, SIZE_MOD]
  · simp [circular_buffer_reset, memset_zero, hcap, hlen]

theorem reset_eq_init_witness :
    circular_buffer_reset
        (run (circular_buffer_init stale 3 junk3)
          [Op.put (sample 1), Op.put (sample 2), Op.get (sample 0), Op.put (sample 3)])
      = circular_buffer_init stale 3 [sample 4, sample 5, sample 6] :=
  (reset_eq_init 3
    (run (circular_buffer_init stale 3 junk3)
      [Op.put (sample 1), Op.put (sample 2), Op.get (sample 0), Op.put (sample 3)])
    stale [sample 4, sample 5, sample 6] rfl rfl rfl).1

/-- C8, the code at the failing input: on a bus where the transmit and the receive call of
the sensor read both fail, with the info screen hidden, `buffer_timer_callback` performs a
put of the measurement computed from the bytes that were never received: the ring grows from
two to three samples and the logger is signalled. -/
theorem buffer_timer_callback_puts_on_dead_bus :
    dead_bus.tx_ok = false ∧ dead_bus.rx_ok = false ∧
      demo_context.info_screen_visible = false ∧
      (buffer_timer_callback dead_bus demo_context).temp_buffer =
        circular_buffer_put demo_context.temp_buffer
          (sht30_read dead_bus demo_context.current_measurement).2 ∧
      circular_buffer_size demo_context.temp_buffer = 2 ∧
      circular_buffer_size (buffer_timer_callback dead_bus demo_context).temp_buffer = 3 ∧
      (buffer_timer_callback dead_bus demo_context).temp_buffer ≠ demo_context.temp_buffer ∧
      (buffer_timer_callback dead_bus demo_context).log_signals
        = demo_context.log_signals + 1 := by
  refine ⟨rfl, rfl, rfl, rfl, by decide, by decide, ?_, rfl⟩
  intro h
  exact absurd (congrArg circular_buffer_size h) (by decide)

/-- C9, the code at the failing input: on a bus where the transmit and the receive call both
fail, `sht30_read` returns true. -/
theorem sht30_read_true_on_dead_bus :
    dead_bus.tx_ok = false ∧ dead_bus.rx_ok = false ∧
      (sht30_read dead_bus Measurement.zero).1 = true := by
  decide

/-- C10: for a non-empty reachable ring whose held samples all have the temperature `t`,
`draw_temperature_graph` divides by the vertical range 1 and every line it draws has both
endpoints at the vertical coordinate `64 - bottom_padding`; it draws `size() - 1` lines. -/
theorem flat_graph_is_level (C : Nat) (context : flippyTempContext)
    (graph_width graph_height left_padding bottom_padding : Int) (t : ℚ)
    (hC : 0 < C) (hS : C < SIZE_MOD) (hr : Reachable C context.temp_buffer)
    (hne : circular_buffer_empty context.temp_buffer = false)
    (hflat : ∀ i, i < circular_buffer_size context.temp_buffer →
      (peek_at context.temp_buffer i).temperature = t) :
    (draw_temperature_graph context graph_width graph_height left_padding
        bottom_padding).range? = some 1 ∧
      (∀ l ∈ (draw_temperature_graph context graph_width graph_height left_padding
          bottom_padding).lines, l.y1 = 64 - bottom_padding ∧ l.y2 = 64 - bottom_padding) ∧
      (draw_temperature_graph context graph_width graph_height left_padding
        bottom_padding).lines.length = circular_buffer_size context.temp_buffer - 1 := by
  have hw := wf_of_reachable hC hr
  have hpos : 0 < circular_buffer_size context.temp_buffer := by
    have h := empty_iff_size_zero hw hS
    rw [hne] at h
    simp only [Bool.false_eq_true, false_iff] at h
    omega
  have hb := temp_bounds_flat hw hS t hpos hflat
  have hrange : graph_temp_range t t = 1 := by simp [graph_temp_range]
  unfold draw_temperature_graph
  simp only [gt_iff_lt, hpos, if_true, hb, hrange, GraphDrawing.range?, GraphDrawing.lines,
    List.length_map, List.length_range', true_and, and_true]
  intro l hl
  obtain ⟨i, hi, rfl⟩ := List.mem_map.1 hl
  rw [List.mem_range'_1] at hi
  exact graph_line_flat context.temp_buffer t _ graph_height left_padding bottom_padding i hi.1
    (hflat (i - 1) (by omega)) (hflat i (by omega))

theorem flat_graph_is_level_witness :
    0 < 3 ∧ 3 < SIZE_MOD ∧ circular_buffer_empty flat_context.temp_buffer = false ∧
      (∀ i, i < circular_buffer_size flat_context.temp_buffer →
        (peek_at flat_context.temp_buffer i).temperature = 22) ∧
      (draw_temperature_graph flat_context 112 36 8 7).range? = some 1 ∧
      (∀ l ∈ (draw_temperature_graph flat_context 112 36 8 7).lines,
        l.y1 = 64 - 7 ∧ l.y2 = 64 - 7) ∧
      (draw_temperature_graph flat_context 112 36 8 7).lines.length = 2 :=
  ⟨by decide, by decide, by decide, by decide,
    (flat_graph_is_level 3 flat_context 112 36 8 7 22 (by decide) (by decide)
      ⟨stale, junk3, [Op.put (sample 22), Op.put (sample 22), Op.put (sample 22)], rfl, rfl⟩
      (by decide) (by decide)).1,
    (flat_graph_is_level 3 flat_context 112 36 8 7 22 (by decide) (by decide)
      ⟨stale, junk3, [Op.put (sample 22), Op.put (sample 22), Op.put (sample 22)], rfl, rfl⟩
      (by decide) (by decide)).2.1,
    (flat_graph_is_level 3 flat_context 112 36 8 7 22 (by decide) (by decide)
      ⟨stale, junk3, [Op.put (sample 22), Op.put (sample 22), Op.put (sample 22)], rfl, rfl⟩
      (by decide) (by decide)).2.2.trans (by decide)⟩

/-- C11: the predicate `head < max_size`, `tail < max_size` and (`full` implies
`head == tail`) holds after `circular_buffer_init` with any capacity `C > 0` and is preserved
by `circular_buffer_put`, `circular_buffer_get` and `circular_buffer_reset`; none of the three
changes `max_size`, which `circular_buffer_init` sets to `C`. -/
theorem ring_inv_init_and_preserved (C : Nat) (cbuf b : CircularBuffer)
    (mem : List Measurement) (x d : Measurement) (hC : 0 < C) :
    (ring_inv (circular_buffer_init cbuf C mem) ∧
        (circular_buffer_init cbuf C mem).max_size = C) ∧
      (ring_inv b →
        ring_inv (circular_buffer_put b x) ∧
          ring_inv (circular_buffer_get b d).2.1 ∧
          ring_inv (circular_buffer_reset b)) ∧
      (circular_buffer_put b x).max_size = b.max_size ∧
      (circular_buffer_get b d).2.1.max_size = b.max_size ∧
      (circular_buffer_reset b).max_size = b.max_size := by
  refine ⟨⟨⟨hC, hC, ?_⟩, rfl⟩, ?_, rfl, ?_, rfl⟩
  · intro h
    simp [circular_buffer_init, circular_buffer_reset] at h
  · intro hinv
    obtain ⟨hh, ht, hf⟩ := hinv
    have hpos : 0 < b.max_size := by omega
    refine ⟨⟨Nat.mod_lt _ hpos, ?_, ?_⟩, ?_, ⟨hpos, hpos, ?_⟩⟩
    · simp only [circular_buffer_put]
      split
      · exact Nat.mod_lt _ hpos
      · exact ht
    · intro h
      simpa [circular_buffer_put] using h
    · unfold circular_buffer_get
      split
      · exact ⟨hh, ht, hf⟩
      · exact ⟨hh, Nat.mod_lt _ hpos, by simp⟩
    · intro h
      simp [circular_buffer_reset] at h
  · unfold circular_buffer_get
    split <;> rfl

theorem ring_inv_init_and_preserved_witness :
    0 < 3 ∧
      ring_inv (run (circular_buffer_init stale 3 junk3)
        [Op.put (sample 1), Op.put (sample 2), Op.put (sample 3)]) ∧
      ring_inv (circular_buffer_put (run (circular_buffer_init stale 3 junk3)
        [Op.put (sample 1), Op.put (sample 2), Op.put (sample 3)]) (sample 4)) ∧
      ring_inv (circular_buffer_get (run (circular_buffer_init stale 3 junk3)
        [Op.put (sample 1), Op.put (sample 2), Op.put (sample 3)]) (sample 0)).2.1 ∧
      ring_inv (circular_buffer_reset (run (circular_buffer_init stale 3 junk3)
        [Op.put (sample 1), Op.put (sample 2), Op.put (sample 3)])) :=
  ⟨by decide, by decide,
    (ring_inv_init_and_preserved 3 stale
      (run (circular_buffer_init stale 3 junk3)
        [Op.put (sample 1), Op.put (sample 2), Op.put (sample 3)])
      junk3 (sample 4) (sample 0) (by decide)).2.1 (by decide)⟩

end FlippyTemp
